import Mathlib

/-!
Verification development for the containerd-metrics event-correlation engine
(`dev/containerd-metrics/main.go`).

The program consumes containerd lifecycle events and correlates snapshot
preparation starts (`SnapshotPrepare`) with their completions
(`SnapshotCommit`), storing in-flight preparations in `prepByKey` and
completed preparations in `commitByKey` / `commitByName`.  On a
`ContainerCreate` event, `pushContainerMetrics` walks the parent chain of
completed preparations backwards from the container's own preparation record,
accumulates per-layer durations, reverses the accumulator and reports the
resulting `Image` timeline.

The embedding below mirrors the Go source: time instants are integers, an
event carries the instant at which the loop processes it (the Go code reads
`time.Now()` at that point), Go maps become functions into `Option`, and the
unbounded chain-walking `for` loop becomes a fuel-indexed function
`walkChain` together with the predicate `PushOutputs` stating that some fuel
suffices (which holds exactly when the Go loop terminates).
-/

namespace ContainerdMetrics

/-- Go `type Prep struct` from the source: an in-flight snapshot preparation.
`Name` exists in the Go struct but is never assigned by the program, so the
recorder always stores Go's zero value `""` for it. -/
structure Prep where
  T : Int
  Parent : String
  Name : String
  deriving Repr, DecidableEq

/-- Go `type Commit struct` from the source: a completed snapshot
preparation. -/
structure Commit where
  Dur : Int
  Parent : String
  Name : String
  Key : String
  deriving Repr, DecidableEq

/-- Go `type Layer struct` from the source: one reported layer. -/
structure Layer where
  ID : String
  Prep : Int
  deriving Repr, DecidableEq

/-- Go `type Image struct` from the source: the reported per-container
timeline. -/
structure Image where
  Name : String
  TotalPrep : Int
  Layer : List Layer
  deriving Repr, DecidableEq

/-- The three package-level maps of the source
(`prepByKey`, `commitByKey`, `commitByName`). -/
structure Store where
  prepByKey : String → Option Prep
  commitByKey : String → Option Commit
  commitByName : String → Option Commit

/-- The initial state: `make(map[...]...)` three times, all maps empty. -/
def emptyStore : Store :=
  { prepByKey := fun _ => none
    commitByKey := fun _ => none
    commitByName := fun _ => none }

/-- The event kinds dispatched by the `switch` in `serveContainerdMetrics`.
Fields irrelevant to the correlation state (the payloads of
`SnapshotRemove` and `ImageDelete`, which are only logged) are omitted. -/
inductive Event where
  | snapshotPrepare (key parent : String)
  | snapshotCommit (key name : String)
  | snapshotRemove
  | imageDelete
  | containerCreate (id image : String)
  deriving Repr, DecidableEq

/-- One iteration of the event loop body of `serveContainerdMetrics`
(lines 113-141): the state update performed for one event, processed at
instant `now` (the value `time.Now()` / `time.Since` observes).
`SnapshotPrepare` overwrites `prepByKey[key]`; `SnapshotCommit` looks up
`prepByKey[key]`, and on a hit builds a `Commit` and stores it under both
the key and the name; `SnapshotRemove`, `ImageDelete` and
`ContainerCreate` do not modify the maps (`pushContainerMetrics` only
reads). -/
def handleEvent (s : Store) (now : Int) : Event → Store
  | .snapshotPrepare key parent =>
      { s with prepByKey := fun k =>
          if k = key then some { T := now, Parent := parent, Name := "" }
          else s.prepByKey k }
  | .snapshotCommit key name =>
      match s.prepByKey key with
      | none => s
      | some p =>
          let c : Commit :=
            { Dur := now - p.T, Name := name, Parent := p.Parent, Key := key }
          { s with
            commitByKey := fun k => if k = key then some c else s.commitByKey k
            commitByName := fun n => if n = name then some c else s.commitByName n }
  | .snapshotRemove => s
  | .imageDelete => s
  | .containerCreate _ _ => s

/-- Folding the loop body over a list of timestamped events. -/
def processEvents (s : Store) : List (Int × Event) → Store
  | [] => s
  | (t, e) :: rest => processEvents (handleEvent s t e) rest

/-- The chain-walking `for ok { ... }` loop of `pushContainerMetrics`
(lines 156-164), made total with a fuel parameter: `none` means the loop
did not finish within `fuel` iterations.  Each iteration appends
`Layer{ID: c.Name, Prep: c.Dur}` to the accumulator, adds `c.Dur` to the
running total and follows `c.Parent`; the loop stops when
`commitByName` has no entry for the current name. -/
def walkChain (cbn : String → Option Commit) :
    Nat → String → List Layer → Int → Option (List Layer × Int)
  | 0, _, _, _ => none
  | fuel + 1, curName, acc, total =>
      match cbn curName with
      | none => some (acc, total)
      | some c =>
          walkChain cbn fuel c.Parent
            (acc ++ [{ ID := c.Name, Prep := c.Dur }]) (total + c.Dur)

/-- The cosmetic reporting label of lines 170-174:
`segs := strings.Split(img.Name, "/"); if len(segs) == 3 { instanceID = segs[2] }`. -/
def instanceID (image : String) : String :=
  let segs := image.splitOn "/"
  if segs.length = 3 then segs.getD 2 "" else ""

/-- The body of `pushContainerMetrics` (lines 145-177), fuel-indexed.
`some none` means the function returned without reporting an image (no
`prepByKey` entry for the container id); `some (some img)` means it
reported `img`; `none` means the chain walk did not finish within `fuel`
iterations.  The layer list is reversed before reporting (lines 166-168). -/
def pushContainerMetrics (s : Store) (id image : String) (fuel : Nat) :
    Option (Option Image) :=
  match s.prepByKey id with
  | none => some none
  | some initialPrep =>
      match walkChain s.commitByName fuel initialPrep.Parent [] 0 with
      | none => none
      | some (layers, total) =>
          some (some { Name := image, TotalPrep := total, Layer := layers.reverse })

/-- The Go `pushContainerMetrics` call terminates and reports `out`
(where `out = none` is "returned without reporting"): some fuel bound
suffices for the fuel-indexed embedding. -/
def PushOutputs (s : Store) (id image : String) (out : Option Image) : Prop :=
  ∃ fuel, pushContainerMetrics s id image fuel = some out

/-- The Go `pushContainerMetrics(id, image)` call terminates (possibly
reporting nothing): some fuel bound suffices for the fuel-indexed
embedding. -/
def PushTerminates (s : Store) (id image : String) : Prop :=
  ∃ out, PushOutputs s id image out

/-- Within `n` chain-walk iterations starting from `name`, some
`commitByName` lookup fails — exactly the loop's only exit condition. -/
def stopsWithin (cbn : String → Option Commit) : Nat → String → Bool
  | 0, _ => false
  | n + 1, name =>
      match cbn name with
      | none => true
      | some c => stopsWithin cbn n c.Parent

/-- Consistency of the two completed-preparation indexes: a record stored
under key `k` in `commitByKey` carries `Key = k`, and a record stored under
name `n` in `commitByName` carries `Name = n`. -/
def StoreInv (s : Store) : Prop :=
  (∀ k c, s.commitByKey k = some c → c.Key = k) ∧
  (∀ n c, s.commitByName n = some c → c.Name = n)

/-- The identifier strings an event mentions: the keys, parent references,
names and container ids through which it can touch or read the store. -/
def eventStrings : Event → List String
  | .snapshotPrepare key parent => [key, parent]
  | .snapshotCommit key name => [key, name]
  | .snapshotRemove => []
  | .imageDelete => []
  | .containerCreate id image => [id, image]

/-- All identifier strings mentioned by a timestamped event sequence. -/
def fp : List (Int × Event) → List String
  | [] => []
  | te :: rest => eventStrings te.2 ++ fp rest

/-- Decidable disjointness of two string lists. -/
def stringsDisjoint (l1 l2 : List String) : Bool :=
  l1.all fun x => !(l2.contains x)

/-- The relation `Interleave es es1 es2`: `es` is a merge of `es1` and
`es2` that keeps the relative order inside each of the two subsequences. -/
inductive Interleave {α : Type} : List α → List α → List α → Prop where
  | nil : Interleave [] [] []
  | cons_left {a : α} {l l1 l2 : List α} :
      Interleave l l1 l2 → Interleave (a :: l) (a :: l1) l2
  | cons_right {a : α} {l l1 l2 : List α} :
      Interleave l l1 l2 → Interleave (a :: l) l1 (a :: l2)

/-- Two stores agree on every map at every string in `F`. -/
def AgreeOn (F : List String) (s s' : Store) : Prop :=
  (∀ k ∈ F, s.prepByKey k = s'.prepByKey k) ∧
  (∀ k ∈ F, s.commitByKey k = s'.commitByKey k) ∧
  (∀ n ∈ F, s.commitByName n = s'.commitByName n)

/-- Every parent reference stored anywhere in `s` lies in `F`. -/
def ParentsIn (F : List String) (s : Store) : Prop :=
  (∀ k p, s.prepByKey k = some p → p.Parent ∈ F) ∧
  (∀ n c, s.commitByName n = some c → c.Parent ∈ F)

/-- The event trace of an image with four layers followed by the container's
own rootfs preparation: used to witness `chain_reconstruction_order`. -/
def chainTrace : List (Int × Event) :=
  [(0, .snapshotPrepare "a" ""), (2, .snapshotCommit "a" "B"),
   (3, .snapshotPrepare "b" "B"), (5, .snapshotCommit "b" "L1"),
   (6, .snapshotPrepare "c" "L1"), (9, .snapshotCommit "c" "L2"),
   (10, .snapshotPrepare "d" "L2"), (14, .snapshotCommit "d" "L3"),
   (15, .snapshotPrepare "e" "L3")]

/-- A store whose completed preparations form a two-element parent cycle
`"A" → "B" → "A"`, reachable from the real event trace below, together
with an in-flight record for container `"c"` pointing into the cycle. -/
def cycStore : Store :=
  processEvents emptyStore
    [(0, .snapshotPrepare "x" "B"), (1, .snapshotCommit "x" "A"),
     (2, .snapshotPrepare "y" "A"), (3, .snapshotCommit "y" "B"),
     (4, .snapshotPrepare "c" "A")]

/-- A small acyclic store: one completed base layer `"A"` and a container
`"c"` whose preparation points at it. -/
def acyclicStore : Store :=
  processEvents emptyStore
    [(0, .snapshotPrepare "a" ""), (1, .snapshotCommit "a" "A"),
     (4, .snapshotPrepare "c" "A")]

/-- One image's events alone: base layer committed as `"L0"`, then the
container's own preparation. -/
def soloTrace : List (Int × Event) :=
  [(0, .snapshotPrepare "a" ""), (2, .snapshotCommit "a" "L0"),
   (3, .snapshotPrepare "c" "L0")]

/-- An unrelated preparation/commit pair with disjoint identifiers. -/
def otherTrace : List (Int × Event) :=
  [(1, .snapshotPrepare "x" "Q"), (4, .snapshotCommit "x" "M")]

/-- The traces `soloTrace` and `otherTrace` merged, preserving each one's
order. -/
def mergedTrace : List (Int × Event) :=
  [(0, .snapshotPrepare "a" ""), (1, .snapshotPrepare "x" "Q"),
   (2, .snapshotCommit "a" "L0"), (3, .snapshotPrepare "c" "L0"),
   (4, .snapshotCommit "x" "M")]

/-! ### Basic recorder properties -/

/-- C6: processing `SnapshotPrepare(K, P)` stores exactly
`Prep{T: now, Parent: P}` under `K` (last-writer-wins, overwriting any prior
record), leaves every other key of the in-flight map alone, and leaves both
commit maps untouched. -/
theorem prepare_last_writer_wins (s : Store) (now : Int) (K P : String) :
    (handleEvent s now (.snapshotPrepare K P)).prepByKey =
      (fun k => if k = K then some { T := now, Parent := P, Name := "" }
                else s.prepByKey k) ∧
    (handleEvent s now (.snapshotPrepare K P)).prepByKey K =
      some { T := now, Parent := P, Name := "" } ∧
    (handleEvent s now (.snapshotPrepare K P)).commitByKey = s.commitByKey ∧
    (handleEvent s now (.snapshotPrepare K P)).commitByName = s.commitByName :=
  ⟨rfl, by simp [handleEvent], rfl, rfl⟩

/-- C4: a `SnapshotCommit(K, N)` that finds no in-flight record for `K`
changes nothing at all — in particular no `Commit` indexed by `N` appears —
and processing continues (the event is merely logged and dropped). -/
theorem commit_without_start_is_noop (s : Store) (now : Int) (K N : String)
    (h : s.prepByKey K = none) :
    handleEvent s now (.snapshotCommit K N) = s ∧
    (handleEvent s now (.snapshotCommit K N)).commitByName N = s.commitByName N := by
  have he : handleEvent s now (.snapshotCommit K N) = s := by
    simp [handleEvent, h]
  exact ⟨he, by rw [he]⟩

/-- Witness for `commit_without_start_is_noop` at the empty store. -/
theorem commit_without_start_is_noop_witness :
    handleEvent emptyStore 7 (.snapshotCommit "k" "n") = emptyStore ∧
    (handleEvent emptyStore 7 (.snapshotCommit "k" "n")).commitByName "n" =
      emptyStore.commitByName "n" :=
  commit_without_start_is_noop emptyStore 7 "k" "n" rfl

/-- C5: a `SnapshotCommit(K, N)` never modifies the in-flight map
`prepByKey`; in particular a matched record is not removed and is still
stored, unchanged, under `K` afterwards. -/
theorem commit_retains_inflight_record (s : Store) (now : Int) (K N : String)
    (p : Prep) (h : s.prepByKey K = some p) :
    (handleEvent s now (.snapshotCommit K N)).prepByKey = s.prepByKey ∧
    (handleEvent s now (.snapshotCommit K N)).prepByKey K = some p := by
  have hk : (handleEvent s now (.snapshotCommit K N)).prepByKey = s.prepByKey := by
    simp [handleEvent, h]
  exact ⟨hk, by rw [hk, h]⟩

/-- Witness for `commit_retains_inflight_record`: after a start for `"k"`,
committing `"k"` keeps the in-flight record. -/
theorem commit_retains_inflight_record_witness :
    (handleEvent (handleEvent emptyStore 0 (.snapshotPrepare "k" "p")) 5
        (.snapshotCommit "k" "n")).prepByKey =
      (handleEvent emptyStore 0 (.snapshotPrepare "k" "p")).prepByKey ∧
    (handleEvent (handleEvent emptyStore 0 (.snapshotPrepare "k" "p")) 5
        (.snapshotCommit "k" "n")).prepByKey "k" =
      some { T := 0, Parent := "p", Name := "" } :=
  commit_retains_inflight_record (handleEvent emptyStore 0 (.snapshotPrepare "k" "p"))
    5 "k" "n" { T := 0, Parent := "p", Name := "" } (by decide)

/-! ### Reconstructor properties -/

/-- C7: a `ContainerCreate` for an id with no in-flight preparation record
reports nothing (`pushContainerMetrics` returns immediately with no
`Image`, for any fuel, so in particular the Go call terminates) and leaves
the correlation store untouched. -/
theorem missing_initial_prep_reports_nothing (s : Store) (now : Int)
    (C img : String) (h : s.prepByKey C = none) :
    PushOutputs s C img none ∧
    (∀ fuel, pushContainerMetrics s C img fuel = some none) ∧
    handleEvent s now (.containerCreate C img) = s :=
  ⟨⟨0, by simp [pushContainerMetrics, h]⟩,
   fun _ => by simp [pushContainerMetrics, h], rfl⟩

/-- Witness for `missing_initial_prep_reports_nothing` at the empty store. -/
theorem missing_initial_prep_reports_nothing_witness :
    PushOutputs emptyStore "c" "img" none ∧
    (∀ fuel, pushContainerMetrics emptyStore "c" "img" fuel = some none) ∧
    handleEvent emptyStore 3 (.containerCreate "c" "img") = emptyStore :=
  missing_initial_prep_reports_nothing emptyStore 3 "c" "img" rfl

/-- C8: if the container id has an in-flight record but its `Parent` has no
completed preparation under that name, the reconstructor reports an `Image`
with an empty layer list and zero total duration — valid output, not an
error. -/
theorem zero_layer_image (s : Store) (C img : String) (p : Prep)
    (h1 : s.prepByKey C = some p) (h2 : s.commitByName p.Parent = none) :
    PushOutputs s C img (some { Name := img, TotalPrep := 0, Layer := [] }) :=
  ⟨1, by simp [pushContainerMetrics, h1, walkChain, h2]⟩

/-- Witness for `zero_layer_image`: a container whose own preparation has an
empty parent, in a store with no completed preparations. -/
theorem zero_layer_image_witness :
    PushOutputs (handleEvent emptyStore 0 (.snapshotPrepare "c" "")) "c" "img"
      (some { Name := "img", TotalPrep := 0, Layer := [] }) :=
  zero_layer_image (handleEvent emptyStore 0 (.snapshotPrepare "c" "")) "c" "img"
    { T := 0, Parent := "", Name := "" } (by decide) (by decide)

/-- C1: for a completed chain base → L1 → L2 → L3 (each completed
preparation's `Parent` resolving to the previous one, the base's `Parent`
resolving to nothing) and a container whose in-flight record's `Parent` is
the name under which L3 is indexed, the reconstructor reports the layers in
chronological order `[base, L1, L2, L3]` (walk top-down, then reverse) and a
total equal to the sum of the four durations — the container's own rootfs
preparation contributes nothing. -/
theorem chain_reconstruction_order (s : Store) (id img : String) (p : Prep)
    (cb c1 c2 c3 : Commit)
    (hp : s.prepByKey id = some p)
    (h3 : s.commitByName p.Parent = some c3)
    (h2 : s.commitByName c3.Parent = some c2)
    (h1 : s.commitByName c2.Parent = some c1)
    (hb : s.commitByName c1.Parent = some cb)
    (h0 : s.commitByName cb.Parent = none) :
    PushOutputs s id img (some
      { Name := img
        TotalPrep := cb.Dur + c1.Dur + c2.Dur + c3.Dur
        Layer := [{ ID := cb.Name, Prep := cb.Dur }, { ID := c1.Name, Prep := c1.Dur },
                  { ID := c2.Name, Prep := c2.Dur }, { ID := c3.Name, Prep := c3.Dur }] }) := by
  refine ⟨5, ?_⟩
  simp [pushContainerMetrics, hp, walkChain, h3, h2, h1, hb, h0]
  ring

/-- Witness for `chain_reconstruction_order` on the store built by
`chainTrace`: container `"e"` reports `[B, L1, L2, L3]` with total
`2 + 2 + 3 + 4 = 11`. -/
theorem chain_reconstruction_order_witness :
    PushOutputs (processEvents emptyStore chainTrace) "e" "img"
      (some { Name := "img", TotalPrep := 11,
              Layer := [{ ID := "B", Prep := 2 }, { ID := "L1", Prep := 2 },
                        { ID := "L2", Prep := 3 }, { ID := "L3", Prep := 4 }] }) :=
  chain_reconstruction_order (processEvents emptyStore chainTrace) "e" "img"
    { T := 15, Parent := "L3", Name := "" }
    { Dur := 2, Parent := "", Name := "B", Key := "a" }
    { Dur := 2, Parent := "B", Name := "L1", Key := "b" }
    { Dur := 3, Parent := "L1", Name := "L2", Key := "c" }
    { Dur := 4, Parent := "L2", Name := "L3", Key := "d" }
    (by decide) (by decide) (by decide) (by decide) (by decide) (by decide)

/-! ### Index consistency -/

/-- The empty store satisfies the index-consistency invariant. -/
theorem emptyStore_inv : StoreInv emptyStore :=
  ⟨fun _ c h => by exact absurd h (by simp [emptyStore]),
   fun _ c h => by exact absurd h (by simp [emptyStore])⟩

/-- C10: every event preserves index consistency, and a matched
`SnapshotCommit(K, N)` inserts one and the same freshly built record
(`Commit{Dur: now − p.T, Parent: p.Parent, Name: N, Key: K}`) into both
commit maps. -/
theorem index_consistency (s : Store) (now : Int) (e : Event)
    (hs : StoreInv s) :
    StoreInv (handleEvent s now e) ∧
    (∀ K N p, s.prepByKey K = some p →
      (handleEvent s now (.snapshotCommit K N)).commitByKey K =
        some { Dur := now - p.T, Parent := p.Parent, Name := N, Key := K } ∧
      (handleEvent s now (.snapshotCommit K N)).commitByName N =
        some { Dur := now - p.T, Parent := p.Parent, Name := N, Key := K }) := by
  constructor
  · cases e with
    | snapshotPrepare key parent => exact hs
    | snapshotCommit key name =>
        cases hsp : s.prepByKey key with
        | none => simpa [handleEvent, hsp] using hs
        | some p =>
            refine ⟨?_, ?_⟩
            · intro k c hc
              simp only [handleEvent, hsp] at hc
              by_cases hk : k = key
              · simp [hk] at hc
                subst hk
                cases hc
                rfl
              · simp [hk] at hc
                exact hs.1 k c hc
            · intro n c hc
              simp only [handleEvent, hsp] at hc
              by_cases hn : n = name
              · simp [hn] at hc
                subst hn
                cases hc
                rfl
              · simp [hn] at hc
                exact hs.2 n c hc
    | snapshotRemove => exact hs
    | imageDelete => exact hs
    | containerCreate id image => exact hs
  · intro K N p hp
    constructor <;> simp [handleEvent, hp]

/-- Witness for `index_consistency`: a prepare event processed on the empty
store keeps the invariant, and a matched commit lands in both maps. -/
theorem index_consistency_witness :
    StoreInv (handleEvent emptyStore 0 (.snapshotPrepare "k" "p")) :=
  (index_consistency emptyStore 0 (.snapshotPrepare "k" "p") emptyStore_inv).1

/-! ### Duplicate commits for one key -/

/-- C3 counterexample: after `prepare("k","p")` at 0 and `commit("k","n1")`
at 5, a `Commit` for key `"k"` exists (`Dur = 5`, `Name = "n1"`).  Because
the in-flight record for `"k"` is never removed, a later
`commit("k","n2")` at 9 matches again: it constructs a second `Commit`
(`Dur = 9`, `Name = "n2"`, also indexed under `"n2"`) and replaces the
by-key entry — so a later commit event for the same key does create another
completed preparation and does change what is stored for `"k"`. -/
theorem duplicate_commit_creates_second_record :
    (processEvents emptyStore
        [(0, .snapshotPrepare "k" "p"), (5, .snapshotCommit "k" "n1")]).commitByKey "k" =
      some { Dur := 5, Parent := "p", Name := "n1", Key := "k" } ∧
    (processEvents emptyStore
        [(0, .snapshotPrepare "k" "p"), (5, .snapshotCommit "k" "n1"),
         (9, .snapshotCommit "k" "n2")]).commitByKey "k" =
      some { Dur := 9, Parent := "p", Name := "n2", Key := "k" } ∧
    (processEvents emptyStore
        [(0, .snapshotPrepare "k" "p"), (5, .snapshotCommit "k" "n1"),
         (9, .snapshotCommit "k" "n2")]).commitByName "n2" =
      some { Dur := 9, Parent := "p", Name := "n2", Key := "k" } ∧
    (some { Dur := 9, Parent := "p", Name := "n2", Key := "k" } : Option Commit) ≠
      some { Dur := 5, Parent := "p", Name := "n1", Key := "k" } := by
  refine ⟨by decide, by decide, by decide, by decide⟩

/-- C3 amended: each `SnapshotCommit(K, N)` that finds the (retained)
in-flight record for `K` constructs a fresh `Commit` and overwrites the
by-key entry, even when a completed preparation for `K` already exists;
the individual `Commit` values themselves are never mutated, only the map
entries are replaced. -/
theorem duplicate_commit_overwrites (s : Store) (now : Int) (K N : String)
    (p : Prep) (c0 : Commit)
    (hp : s.prepByKey K = some p) (_hc : s.commitByKey K = some c0) :
    (handleEvent s now (.snapshotCommit K N)).commitByKey K =
      some { Dur := now - p.T, Parent := p.Parent, Name := N, Key := K } ∧
    (handleEvent s now (.snapshotCommit K N)).commitByName N =
      some { Dur := now - p.T, Parent := p.Parent, Name := N, Key := K } := by
  constructor <;> simp [handleEvent, hp]

/-- Witness for `duplicate_commit_overwrites`: the second commit of the
counterexample trace replaces the record stored for `"k"`. -/
theorem duplicate_commit_overwrites_witness :
    (handleEvent (processEvents emptyStore
        [(0, .snapshotPrepare "k" "p"), (5, .snapshotCommit "k" "n1")]) 9
        (.snapshotCommit "k" "n2")).commitByKey "k" =
      some { Dur := 9 - (0 : Int), Parent := "p", Name := "n2", Key := "k" } ∧
    (handleEvent (processEvents emptyStore
        [(0, .snapshotPrepare "k" "p"), (5, .snapshotCommit "k" "n1")]) 9
        (.snapshotCommit "k" "n2")).commitByName "n2" =
      some { Dur := 9 - (0 : Int), Parent := "p", Name := "n2", Key := "k" } :=
  duplicate_commit_overwrites (processEvents emptyStore
      [(0, .snapshotPrepare "k" "p"), (5, .snapshotCommit "k" "n1")]) 9 "k" "n2"
    ({ T := 0, Parent := "p", Name := "" } : Prep)
    ({ Dur := 5, Parent := "p", Name := "n1", Key := "k" } : Commit)
    (by decide) (by decide)

/-! ### Termination of the chain walk -/

/-- The fuel-indexed walk finishes within `n` iterations exactly when a
lookup fails within `n` iterations. -/
theorem walkChain_isSome_iff_stopsWithin (cbn : String → Option Commit) :
    ∀ (n : Nat) (name : String) (acc : List Layer) (total : Int),
      (walkChain cbn n name acc total).isSome = stopsWithin cbn n name := by
  intro n
  induction n with
  | zero => intro name acc total; rfl
  | succ m ih =>
      intro name acc total
      cases hc : cbn name with
      | none => simp [walkChain, stopsWithin, hc]
      | some c => simp [walkChain, stopsWithin, hc, ih]

/-- Walking `cycStore`'s cycle never finds a failing lookup, whatever the
fuel, accumulator or running total. -/
theorem cycStore_walk_none (n : Nat) :
    ∀ (acc : List Layer) (total : Int),
      walkChain cycStore.commitByName n "A" acc total = none ∧
      walkChain cycStore.commitByName n "B" acc total = none := by
  have hA : cycStore.commitByName "A" =
      some { Dur := 1, Parent := "B", Name := "A", Key := "x" } := by decide
  have hB : cycStore.commitByName "B" =
      some { Dur := 1, Parent := "A", Name := "B", Key := "y" } := by decide
  induction n with
  | zero => intro acc total; exact ⟨rfl, rfl⟩
  | succ m ih =>
      intro acc total
      constructor
      · rw [walkChain, hA]
        exact (ih _ _).2
      · rw [walkChain, hB]
        exact (ih _ _).1

/-- C2 counterexample: on `cycStore` the chain walk for container `"c"`
exhausts every fuel bound — the Go loop never meets its only exit
condition (a failed name lookup), so it is infinite: the walk does *not*
terminate on every store. -/
theorem cyclic_chain_walk_diverges : ¬ PushTerminates cycStore "c" "img" := by
  rintro ⟨out, fuel, hout⟩
  have hp : cycStore.prepByKey "c" = some { T := 4, Parent := "A", Name := "" } := by
    decide
  rw [pushContainerMetrics, hp] at hout
  simp only at hout
  rw [(cycStore_walk_none fuel [] 0).1] at hout
  exact Option.noConfusion hout

/-- C2 amended: the chain walk for a container with in-flight record `p`
terminates exactly when following `Parent` links from `p.Parent` reaches a
name with no completed preparation after finitely many steps; on a chain
whose every lookup succeeds (e.g. a cycle) the loop is infinite, because a
failed lookup is its only exit condition. -/
theorem chain_walk_terminates_iff (s : Store) (id img : String) (p : Prep)
    (hp : s.prepByKey id = some p) :
    PushTerminates s id img ↔ ∃ n, stopsWithin s.commitByName n p.Parent = true := by
  constructor
  · rintro ⟨out, fuel, hout⟩
    refine ⟨fuel, ?_⟩
    rw [pushContainerMetrics, hp] at hout
    simp only at hout
    rw [← walkChain_isSome_iff_stopsWithin s.commitByName fuel p.Parent [] 0]
    cases hw : walkChain s.commitByName fuel p.Parent [] 0 with
    | none => rw [hw] at hout; exact Option.noConfusion hout
    | some r => rfl
  · rintro ⟨n, hn⟩
    have := walkChain_isSome_iff_stopsWithin s.commitByName n p.Parent [] 0
    rw [hn] at this
    cases hw : walkChain s.commitByName n p.Parent [] 0 with
    | none => rw [hw] at this; exact Bool.noConfusion this
    | some r =>
        refine ⟨some { Name := img, TotalPrep := r.2, Layer := r.1.reverse }, n, ?_⟩
        rw [pushContainerMetrics, hp]
        simp only
        rw [hw]

/-- Witness for `chain_walk_terminates_iff` on `acyclicStore`. -/
theorem chain_walk_terminates_iff_witness :
    PushTerminates acyclicStore "c" "img" ↔
      ∃ n, stopsWithin acyclicStore.commitByName n
        (Prep.mk 4 "A" "").Parent = true :=
  chain_walk_terminates_iff acyclicStore "c" "img"
    { T := 4, Parent := "A", Name := "" } (by decide)

/-! ### Interleaving independence -/

theorem stringsDisjoint_spec {l1 l2 : List String}
    (h : stringsDisjoint l1 l2 = true) : ∀ x ∈ l1, x ∉ l2 := by
  intro x hx
  simp only [stringsDisjoint, List.all_eq_true] at h
  have := h x hx
  simpa using this

theorem mem_fp_of_mem {es : List (Int × Event)} {te : Int × Event}
    (hte : te ∈ es) {x : String} (hx : x ∈ eventStrings te.2) : x ∈ fp es := by
  induction es with
  | nil => cases hte
  | cons a rest ih =>
      rcases List.mem_cons.mp hte with h | h
      · subst h; exact List.mem_append.mpr (Or.inl hx)
      · exact List.mem_append.mpr (Or.inr (ih h))

theorem interleave_swap {α : Type} {es es1 es2 : List α}
    (h : Interleave es es1 es2) : Interleave es es2 es1 := by
  induction h with
  | nil => exact .nil
  | cons_left _ ih => exact .cons_right ih
  | cons_right _ ih => exact .cons_left ih

theorem agreeOn_refl (F : List String) (s : Store) : AgreeOn F s s :=
  ⟨fun _ _ => rfl, fun _ _ => rfl, fun _ _ => rfl⟩

theorem agreeOn_trans {F : List String} {s1 s2 s3 : Store}
    (h12 : AgreeOn F s1 s2) (h23 : AgreeOn F s2 s3) : AgreeOn F s1 s3 :=
  ⟨fun k hk => (h12.1 k hk).trans (h23.1 k hk),
   fun k hk => (h12.2.1 k hk).trans (h23.2.1 k hk),
   fun n hn => (h12.2.2 n hn).trans (h23.2.2 n hn)⟩

/-- An event none of whose identifier strings lies in `F` leaves the store
unchanged at every string of `F`. -/
theorem handleEvent_frame (s : Store) (t : Int) (e : Event) (F : List String)
    (he : ∀ x ∈ eventStrings e, x ∉ F) :
    AgreeOn F (handleEvent s t e) s := by
  cases e with
  | snapshotPrepare key parent =>
      refine ⟨?_, fun _ _ => rfl, fun _ _ => rfl⟩
      intro k hk
      have hne : k ≠ key := fun hkk =>
        he key (by simp [eventStrings]) (hkk ▸ hk)
      simp [handleEvent, hne]
  | snapshotCommit key name =>
      cases hsp : s.prepByKey key with
      | none => simp [handleEvent, hsp]; exact agreeOn_refl F s
      | some p =>
          refine ⟨fun _ _ => by simp [handleEvent, hsp], ?_, ?_⟩
          · intro k hk
            have hne : k ≠ key := fun hkk =>
              he key (by simp [eventStrings]) (hkk ▸ hk)
            simp [handleEvent, hsp, hne]
          · intro n hn
            have hne : n ≠ name := fun hnn =>
              he name (by simp [eventStrings]) (hnn ▸ hn)
            simp [handleEvent, hsp, hne]
  | snapshotRemove => exact agreeOn_refl F s
  | imageDelete => exact agreeOn_refl F s
  | containerCreate id image => exact agreeOn_refl F s

/-- Processing the same event, at the same instant, on two stores that
agree on `F` keeps them agreeing on `F`, provided the event only mentions
strings in `F`. -/
theorem handleEvent_congr (s s' : Store) (t : Int) (e : Event) (F : List String)
    (hag : AgreeOn F s s') (he : ∀ x ∈ eventStrings e, x ∈ F) :
    AgreeOn F (handleEvent s t e) (handleEvent s' t e) := by
  cases e with
  | snapshotPrepare key parent =>
      refine ⟨?_, hag.2.1, hag.2.2⟩
      intro k hk
      by_cases hkk : k = key
      · simp [handleEvent, hkk]
      · simp [handleEvent, hkk]; exact hag.1 k hk
  | snapshotCommit key name =>
      have hkey : key ∈ F := he key (by simp [eventStrings])
      have hpk : s.prepByKey key = s'.prepByKey key := hag.1 key hkey
      cases hsp : s.prepByKey key with
      | none =>
          have hsp' : s'.prepByKey key = none := by rw [← hpk, hsp]
          simpa [handleEvent, hsp, hsp'] using hag
      | some p =>
          have hsp' : s'.prepByKey key = some p := by rw [← hpk, hsp]
          refine ⟨fun k hk => by simp [handleEvent, hsp, hsp']; exact hag.1 k hk, ?_, ?_⟩
          · intro k hk
            by_cases hkk : k = key
            · simp [handleEvent, hsp, hsp', hkk]
            · simp [handleEvent, hsp, hsp', hkk]; exact hag.2.1 k hk
          · intro n hn
            by_cases hnn : n = name
            · simp [handleEvent, hsp, hsp', hnn]
            · simp [handleEvent, hsp, hsp', hnn]; exact hag.2.2 n hn
  | snapshotRemove => exact hag
  | imageDelete => exact hag
  | containerCreate id image => exact hag

/-- Merging a second, `F`-disjoint event sequence into a sequence whose
events stay inside `F` does not disturb the store as seen through `F`. -/
theorem processEvents_interleave (F : List String)
    {es es1 es2 : List (Int × Event)} (hmerge : Interleave es es1 es2) :
    (∀ te ∈ es1, ∀ x ∈ eventStrings te.2, x ∈ F) →
    (∀ te ∈ es2, ∀ x ∈ eventStrings te.2, x ∉ F) →
    ∀ s s', AgreeOn F s s' →
      AgreeOn F (processEvents s es) (processEvents s' es1) := by
  induction hmerge with
  | nil => intro _ _ s s' hag; exact hag
  | cons_left hm ih =>
      intro h1 h2 s s' hag
      refine ih (fun te hte => h1 te (List.mem_cons_of_mem _ hte)) h2 _ _ ?_
      exact handleEvent_congr s s' _ _ F hag (h1 _ (List.mem_cons_self _ _))
  | cons_right hm ih =>
      intro h1 h2 s s' hag
      refine ih h1 (fun te hte => h2 te (List.mem_cons_of_mem _ hte)) _ _ ?_
      exact agreeOn_trans
        (handleEvent_frame s _ _ F (h2 _ (List.mem_cons_self _ _))) hag

/-- Processing events whose strings lie in `F` keeps every stored parent
reference inside `F`. -/
theorem processEvents_parentsIn (F : List String) :
    ∀ (es : List (Int × Event)),
      (∀ te ∈ es, ∀ x ∈ eventStrings te.2, x ∈ F) →
      ∀ s, ParentsIn F s → ParentsIn F (processEvents s es)
  | [], _, s, hs => hs
  | (t, e) :: rest, hes, s, hs => by
      refine processEvents_parentsIn F rest
        (fun te hte => hes te (List.mem_cons_of_mem _ hte)) _ ?_
      have he : ∀ x ∈ eventStrings e, x ∈ F :=
        hes (t, e) (List.mem_cons_self _ _)
      cases e with
      | snapshotPrepare key parent =>
          refine ⟨?_, hs.2⟩
          intro k p hp
          by_cases hkk : k = key
          · simp [handleEvent, hkk] at hp
            rw [← hp]
            exact he parent (by simp [eventStrings])
          · simp [handleEvent, hkk] at hp
            exact hs.1 k p hp
      | snapshotCommit key name =>
          cases hsp : s.prepByKey key with
          | none => simpa [handleEvent, hsp] using hs
          | some p =>
              refine ⟨fun k q hq => hs.1 k q (by simpa [handleEvent, hsp] using hq), ?_⟩
              intro n c hc
              by_cases hnn : n = name
              · simp [handleEvent, hsp, hnn] at hc
                rw [← hc]
                exact hs.1 key p hsp
              · simp [handleEvent, hsp, hnn] at hc
                exact hs.2 n c hc
      | snapshotRemove => exact hs
      | imageDelete => exact hs
      | containerCreate id image => exact hs

/-- Chain walks over two `commitByName` maps that agree on `F` coincide,
as long as the start name lies in `F` and every stored parent reference of
the second map lies in `F`. -/
theorem walkChain_congr (cbn cbn' : String → Option Commit) (F : List String)
    (hag : ∀ n ∈ F, cbn n = cbn' n)
    (hcl : ∀ n c, cbn' n = some c → c.Parent ∈ F) :
    ∀ (fuel : Nat) (name : String), name ∈ F →
      ∀ (acc : List Layer) (total : Int),
        walkChain cbn fuel name acc total = walkChain cbn' fuel name acc total := by
  intro fuel
  induction fuel with
  | zero => intro name _ acc total; rfl
  | succ m ih =>
      intro name hn acc total
      rw [walkChain, walkChain, hag name hn]
      cases hc : cbn' name with
      | none => rfl
      | some c => exact ih c.Parent (hcl name c hc) _ _

/-- Reconstruction reads the store only through the container id and the
parent references reachable from it: two stores agreeing on `F` produce the
same report for any id in `F`, when the reference store keeps its parents
inside `F`. -/
theorem pushContainerMetrics_congr (s s' : Store) (F : List String)
    (hag : AgreeOn F s s') (hcl : ParentsIn F s')
    (id img : String) (hid : id ∈ F) (fuel : Nat) :
    pushContainerMetrics s id img fuel = pushContainerMetrics s' id img fuel := by
  rw [pushContainerMetrics, pushContainerMetrics, hag.1 id hid]
  cases hp : s'.prepByKey id with
  | none => rfl
  | some p =>
      simp only
      rw [walkChain_congr s.commitByName s'.commitByName F hag.2.2 hcl.2
        fuel p.Parent (hcl.1 id p hp) [] 0]

/-- C9: let `es` be any order-preserving interleaving of two event
sequences `es1` and `es2` that share no identifier strings (keys, parent
references, names, container ids, images).  Then reconstruction reports,
for a container id of `es1`, exactly what processing `es1` alone reports,
and likewise for `es2` — correlation depends only on key/name matching,
never on adjacency between independent pairs. -/
theorem interleaving_independence (es es1 es2 : List (Int × Event))
    (hmerge : Interleave es es1 es2)
    (hdisj : stringsDisjoint (fp es1) (fp es2) = true)
    (id image : String) (fuel : Nat) :
    (id ∈ fp es1 →
      pushContainerMetrics (processEvents emptyStore es) id image fuel =
        pushContainerMetrics (processEvents emptyStore es1) id image fuel) ∧
    (id ∈ fp es2 →
      pushContainerMetrics (processEvents emptyStore es) id image fuel =
        pushContainerMetrics (processEvents emptyStore es2) id image fuel) := by
  have hdisj1 : ∀ x ∈ fp es1, x ∉ fp es2 := stringsDisjoint_spec hdisj
  have hdisj2 : ∀ x ∈ fp es2, x ∉ fp es1 := fun x hx2 hx1 => hdisj1 x hx1 hx2
  constructor
  · intro hid
    have hag : AgreeOn (fp es1) (processEvents emptyStore es)
        (processEvents emptyStore es1) :=
      processEvents_interleave (fp es1) hmerge
        (fun te hte x hx => mem_fp_of_mem hte hx)
        (fun te hte x hx => hdisj2 x (mem_fp_of_mem hte hx))
        emptyStore emptyStore (agreeOn_refl _ _)
    have hcl : ParentsIn (fp es1) (processEvents emptyStore es1) :=
      processEvents_parentsIn (fp es1) es1
        (fun te hte x hx => mem_fp_of_mem hte hx) emptyStore
        ⟨fun k p hp => absurd hp (by simp [emptyStore]),
         fun n c hc => absurd hc (by simp [emptyStore])⟩
    exact pushContainerMetrics_congr _ _ (fp es1) hag hcl id image hid fuel
  · intro hid
    have hag : AgreeOn (fp es2) (processEvents emptyStore es)
        (processEvents emptyStore es2) :=
      processEvents_interleave (fp es2) (interleave_swap hmerge)
        (fun te hte x hx => mem_fp_of_mem hte hx)
        (fun te hte x hx => hdisj1 x (mem_fp_of_mem hte hx))
        emptyStore emptyStore (agreeOn_refl _ _)
    have hcl : ParentsIn (fp es2) (processEvents emptyStore es2) :=
      processEvents_parentsIn (fp es2) es2
        (fun te hte x hx => mem_fp_of_mem hte hx) emptyStore
        ⟨fun k p hp => absurd hp (by simp [emptyStore]),
         fun n c hc => absurd hc (by simp [emptyStore])⟩
    exact pushContainerMetrics_congr _ _ (fp es2) hag hcl id image hid fuel

/-- Witness for `interleaving_independence` on the concrete merge
`mergedTrace` of `soloTrace` with `otherTrace`. -/
theorem interleaving_independence_witness :
    pushContainerMetrics (processEvents emptyStore mergedTrace) "c" "img" 8 =
      pushContainerMetrics (processEvents emptyStore soloTrace) "c" "img" 8 :=
  (interleaving_independence mergedTrace soloTrace otherTrace
      (.cons_left (.cons_right (.cons_left (.cons_left (.cons_right .nil)))))
      (by decide) "c" "img" 8).1 (by decide)

end ContainerdMetrics
